import Mathlib

/-!
Verification of the chess-bench benchmark pipeline (`main.go`).

The Go program is embedded shallowly:

* Pure data (`settings`, `commit`, `appConfig`) become Lean structures.
* The filesystem is a flat state: a set of existing directory paths and an
  association list of file contents (only the `__bench` marker file is ever
  written by the program itself).
* External effects (remote listing, `git` clone/checkout, shell commands,
  elapsed timings) are resolved by an environment `Env` of oracles indexed
  by a per-effect call counter held in the pipeline state.
* Every externally visible action is recorded in an event trace, so that
  ordering and counting claims can be stated about traces.
* `log.Fatalf` (process exit) and Go runtime panics are distinct outcomes
  of the embedded pipeline.

SHA-256 is modelled as a deterministic injective-shaped stand-in
(`sha256Sum`); the claims proved here use only that the digest is a
deterministic function of the serialized settings, never any cryptographic
property.
-/

/-- Go struct `settings` (main.go lines 24-29). Go `int` is modelled as `Int`. -/
structure Settings where
  runs : Int
  depth : Int
  buildCmd : String
  runCmd : String
deriving Repr, DecidableEq

/-- Go struct `commit` (main.go lines 31-35). -/
structure Commit where
  hash : String
  label : String
  settings : Settings
deriving Repr, DecidableEq

/-- Go struct `appConfig` (main.go lines 37-42). -/
structure AppConfig where
  baseSettings : Settings
  remoteURL : String
  commits : List Commit
  pwd : String
deriving Repr, DecidableEq

/-- `applySettings` (main.go lines 53-66): four sequential in-place updates
on the commit-level settings record, each falling back to the base value
when the commit-level field holds the Go zero value. -/
def applySettings (cfgSettings : Settings) (baseSettings : Settings) : Settings :=
  let s1 := if cfgSettings.runs = 0 then
    { cfgSettings with runs := baseSettings.runs } else cfgSettings
  let s2 := if s1.depth = 0 then
    { s1 with depth := baseSettings.depth } else s1
  let s3 := if s2.buildCmd = "" then
    { s2 with buildCmd := baseSettings.buildCmd } else s2
  if s3.runCmd = "" then
    { s3 with runCmd := baseSettings.runCmd } else s3

/-- The settings-merge loop of `getConfig` (main.go lines 86-89). -/
def mergeConfig (cfg : AppConfig) : AppConfig :=
  { cfg with commits :=
      cfg.commits.map fun c => { c with settings := applySettings c.settings cfg.baseSettings } }

/-- A 20-byte git object id (`plumbing.Hash`), kept as its byte list. -/
structure GitHash where
  bytes : List Nat
deriving Repr, DecidableEq

/-- `plumbing.ZeroHash`. -/
def zeroHash : GitHash := ⟨List.replicate 20 0⟩

/-- Hex digits accepted by `encoding/hex` (both cases). -/
def isGoHexDigit (c : Char) : Bool :=
  ('0' ≤ c && c ≤ '9') || ('a' ≤ c && c ≤ 'f') || ('A' ≤ c && c ≤ 'F')

/-- Numeric value of a hex digit. -/
def hexVal (c : Char) : Nat :=
  if '0' ≤ c && c ≤ '9' then c.toNat - '0'.toNat
  else if 'a' ≤ c && c ≤ 'f' then c.toNat - 'a'.toNat + 10
  else if 'A' ≤ c && c ≤ 'F' then c.toNat - 'A'.toNat + 10
  else 0

/-- Decode consecutive pairs of hex digits into bytes. -/
def decodeHexPairs : List Char → List Nat
  | c1 :: c2 :: rest => (16 * hexVal c1 + hexVal c2) :: decodeHexPairs rest
  | _ => []

/-- `plumbing.FromHex`: a 40-character hex string parses to a 20-byte hash;
any other length or a non-hex character is rejected. -/
def fromHex (s : String) : Option GitHash :=
  if s.length = 40 ∧ s.toList.all isGoHexDigit then
    some ⟨decodeHexPairs s.toList⟩
  else
    none

/-- Lowercase hex character of a nibble. -/
def hexChar (n : Nat) : Char :=
  if n < 10 then Char.ofNat ('0'.toNat + n) else Char.ofNat ('a'.toNat + (n - 10))

/-- `plumbing.Hash.String()`: lowercase hex rendering of the bytes. -/
def hashString (h : GitHash) : String :=
  String.mk (h.bytes.map (fun b => [hexChar (b / 16 % 16), hexChar (b % 16)])).flatten

/-- `path.Join` on the clean inputs the program uses. -/
def pathJoin (a b : String) : String := a ++ "/" ++ b

/-- JSON escaping for the command strings, modelled for the quote and
backslash characters; only determinism of the rendering is used. -/
def jsonEscape (s : String) : String :=
  String.mk (s.toList.map (fun c => if c = '"' || c = '\\' then ['\\', c] else [c])).flatten

/-- `json.Marshal` of a `settings` value (struct fields in declaration
order, as `encoding/json` emits them). -/
def jsonMarshal (s : Settings) : String :=
  "\x7b\"runs\":" ++ toString s.runs ++
  ",\"depth\":" ++ toString s.depth ++
  ",\"buildCmd\":\"" ++ jsonEscape s.buildCmd ++
  "\",\"runCmd\":\"" ++ jsonEscape s.runCmd ++ "\"\x7d"

/-- UTF-8-agnostic byte view of a string (code points; deterministic). -/
def strBytes (s : String) : List Nat := s.toList.map Char.toNat

/-- Stand-in for `sha256.Sum256`: a deterministic function of the input
bytes. The claims use only determinism of the digest, so the digest is
modelled as the length-prefixed input. -/
def sha256Sum (input : List Nat) : List Nat := input.length :: input

/-- The settings fingerprint written to the `__bench` marker
(main.go lines 182-187). -/
def fingerprint (s : Settings) : List Nat := sha256Sum (strBytes (jsonMarshal s))

/-- Flat filesystem model: existing directories and file contents. -/
structure FS where
  dirs : List String
  files : List (String × List Nat)
deriving Repr, DecidableEq

/-- `dirExists` (main.go lines 44-51). -/
def dirExists (fs : FS) (p : String) : Bool := fs.dirs.contains p

/-- Whether `os.Stat` on a file path succeeds. -/
def fileExists (fs : FS) (p : String) : Bool := (fs.files.lookup p).isSome

/-- `os.ReadFile` contents of an existing file. -/
def readFileFS (fs : FS) (p : String) : List Nat := (fs.files.lookup p).getD []

/-- `os.WriteFile`: create or overwrite. -/
def writeFileFS (fs : FS) (p : String) (data : List Nat) : FS :=
  { fs with files := (p, data) :: fs.files.filter (fun e => e.1 != p) }

/-- `os.MkdirAll` (errors ignored by the program). -/
def mkDir (fs : FS) (p : String) : FS :=
  if fs.dirs.contains p then fs else { fs with dirs := p :: fs.dirs }

/-- Externally visible actions of the pipeline, in the order performed. -/
inductive Event where
  | remoteListCall
  | cloneCall (dir : String)
  | checkoutCall (dir : String)
  | markerWrite (p : String) (data : List Nat)
  | buildExec (cmd : String)
  | warmupExec (cmd : String)
  | timedExec (cmd : String)
deriving Repr, DecidableEq

/-- Pipeline state: the filesystem, the event trace (oldest first), and
per-effect call counters used to index the environment's oracles. -/
structure PState where
  fs : FS
  trace : List Event
  nList : Nat
  nClone : Nat
  nBuild : Nat
  nRunExec : Nat
deriving Repr, DecidableEq

/-- One advertised ref of the remote (name, whether symbolic, its target
name when symbolic, and its hash). -/
structure Ref where
  name : String
  symbolic : Bool
  target : String
  hash : GitHash
deriving Repr, DecidableEq

/-- Environment of external-effect oracles, indexed by call counters:
the k-th remote listing outcome (`none` is a `ListContext` error), the
k-th clone/checkout attempt, whether a failed clone leaves a directory
behind, the k-th build-command exit, the k-th run-command exit and its
elapsed microseconds. -/
structure Env where
  listing : Nat → Option (List Ref)
  cloneOk : Nat → Bool
  cloneLeavesDir : Nat → Bool
  checkoutOk : Nat → Bool
  buildOk : Nat → Bool
  runOk : Nat → Bool
  runMicros : Nat → Nat

/-- Outcome of an embedded Go function: normal return value, error return,
or runtime panic. -/
inductive GoResult (α : Type) where
  | ok : α → GoResult α
  | error : String → GoResult α
  | panicked : String → GoResult α
deriving Repr, DecidableEq

/-- The HEAD-finding scan over the listed refs (main.go lines 111-131):
first ref named HEAD; one level of symbolic indirection; `zeroHash` when
nothing resolves. -/
def scanHead (refs : List Ref) : GitHash :=
  match refs.find? (fun r => r.name == "HEAD") with
  | none => zeroHash
  | some r =>
    if r.symbolic then
      if r.target != "" then
        match refs.find? (fun r2 => r2.name == r.target) with
        | some r2 => r2.hash
        | none => zeroHash
      else zeroHash
    else r.hash

/-- `getHash` (main.go lines 94-145): symbolic `"HEAD"` references issue a
remote listing; any other reference is parsed locally by `fromHex` with no
state change. -/
def getHash (env : Env) (h : String) (st : PState) : GoResult GitHash × PState :=
  if h = "HEAD" then
    let st1 : PState :=
      { st with trace := st.trace ++ [Event.remoteListCall], nList := st.nList + 1 }
    match env.listing st.nList with
    | none => (.error "ListContextError", st1)
    | some refs =>
      let hash := scanHead refs
      if hash = zeroHash then (.error "Failed to find HEAD commit hash", st1)
      else (.ok hash, st1)
  else
    match fromHex h with
    | some hash => (.ok hash, st)
    | none => (.error ("Failed to parse commit hash: " ++ h), st)

/-- The workspace directory of a commit hash (main.go line 154). -/
def commitDirOf (cfg : AppConfig) (hash : GitHash) : String :=
  pathJoin (pathJoin cfg.pwd "build") (hashString hash)

/-- The clone-if-absent step of `buildCommit` (main.go lines 156-179): a
directory already present at the workspace path short-circuits with no
clone and no checkout and no content validation; otherwise clone without
checkout, then check out the commit. A failed clone may leave a
partially-created directory behind (environment's choice). -/
def ensureWorkspace (env : Env) (cfg : AppConfig) (hash : GitHash) (st : PState) :
    GoResult Unit × PState :=
  let commitDir := commitDirOf cfg hash
  if dirExists st.fs commitDir then
    (.ok (), st)
  else
    let k := st.nClone
    let st1 : PState :=
      { st with trace := st.trace ++ [Event.cloneCall commitDir], nClone := k + 1 }
    if env.cloneOk k then
      let st2 : PState := { st1 with fs := mkDir st1.fs commitDir }
      let st3 : PState := { st2 with trace := st2.trace ++ [Event.checkoutCall commitDir] }
      if env.checkoutOk k then (.ok (), st3)
      else (.error "Error checking out commit", st3)
    else
      let fs2 := if env.cloneLeavesDir k then mkDir st1.fs commitDir else st1.fs
      (.error "Error cloning repo", { st1 with fs := fs2 })

/-- The write-marker-then-build tail of `buildCommit` (main.go lines
208-233), reached on both build paths (marker absent, or marker present
with a different digest): write the new digest to the marker file, change
into the workspace directory, then run the build command. -/
def writeAndBuild (env : Env) (c : Commit) (commitDir shaFile : String) (sha : List Nat)
    (st : PState) : GoResult Unit × PState :=
  let st1 : PState :=
    { st with fs := writeFileFS st.fs shaFile sha,
              trace := st.trace ++ [Event.markerWrite shaFile sha] }
  if dirExists st1.fs commitDir then
    let k := st1.nBuild
    let st2 : PState :=
      { st1 with trace := st1.trace ++ [Event.buildExec c.settings.buildCmd],
                 nBuild := k + 1 }
    if env.buildOk k then (.ok (), st2)
    else (.error "Error building commit", st2)
  else
    (.error "Error changing dirs", st1)

/-- The settings-fingerprint cache step of `buildCommit` (main.go lines
181-235). When the marker file exists, the shadowed-`err` slip at line 194
leaves the outer `err` equal to `nil`, so an equal digest (`rebuild`
false) falls through to the `else` branch at line 216 and returns the
error `"Error with Stat: <nil>"` instead of succeeding. -/
def cacheAndBuild (env : Env) (c : Commit) (commitDir : String) (st : PState) :
    GoResult Unit × PState :=
  let sha := fingerprint c.settings
  let shaFile := pathJoin commitDir "__bench"
  if fileExists st.fs shaFile then
    let data := readFileFS st.fs shaFile
    if data ≠ sha then writeAndBuild env c commitDir shaFile sha st
    else (.error "Error with Stat: <nil>", st)
  else
    writeAndBuild env c commitDir shaFile sha st

/-- `buildCommit` (main.go lines 147-236): resolve, materialize, then the
cache/build step. -/
def buildCommit (env : Env) (c : Commit) (cfg : AppConfig) (st : PState) :
    GoResult Unit × PState :=
  match getHash env c.hash st with
  | (.error m, st1) => (.error ("Error getting hash: " ++ m), st1)
  | (.panicked m, st1) => (.panicked m, st1)
  | (.ok hash, st1) =>
    let commitDir := commitDirOf cfg hash
    match ensureWorkspace env cfg hash st1 with
    | (.ok _, st2) => cacheAndBuild env c commitDir st2
    | (.error m, st2) => (.error m, st2)
    | (.panicked m, st2) => (.panicked m, st2)

/-- The timed benchmarking loop of `runCommit` (main.go lines 293-305):
run `remaining` more executions, `i` of them already done; each sample is
the elapsed microseconds divided by 1000. -/
def benchLoop (env : Env) (cmd : String) (i : Nat) (remaining : Nat) (st : PState) :
    GoResult (List ℚ) × PState :=
  match remaining with
  | 0 => (.ok [], st)
  | n + 1 =>
    let k := st.nRunExec
    let st1 : PState :=
      { st with trace := st.trace ++ [Event.timedExec cmd], nRunExec := k + 1 }
    if env.runOk k then
      let sample : ℚ := (env.runMicros k : ℚ) / 1000
      match benchLoop env cmd (i + 1) n st1 with
      | (.ok rest, st2) => (.ok (sample :: rest), st2)
      | (.error m, st2) => (.error m, st2)
      | (.panicked m, st2) => (.panicked m, st2)
    else
      (.error ("Failed to perform run " ++ toString (i + 1)), st1)

/-- `runCommit` (main.go lines 253-319): re-resolve the hash, check the
workspace and bin directories, substitute the depth placeholder, one
untimed warm-up, then `Runs` timed executions. A negative `Runs` panics
at the sample-slice allocation (`make` with negative length, line 292);
`Runs = 0` survives the empty loop and panics when the result print
indexes `runs[0]` (line 311). On success the samples that the result
print reports are returned. -/
def runCommit (env : Env) (c : Commit) (cfg : AppConfig) (st : PState) :
    GoResult (List ℚ) × PState :=
  match getHash env c.hash st with
  | (.error m, st1) => (.error ("Error getting hash: " ++ m), st1)
  | (.panicked m, st1) => (.panicked m, st1)
  | (.ok hash, st1) =>
    let commitDir := commitDirOf cfg hash
    let binDir := pathJoin commitDir "bin"
    if !dirExists st1.fs commitDir then
      (.error "Failed to locate commit directory", st1)
    else if !dirExists st1.fs binDir then
      (.error "Failed to locate bin directory", st1)
    else
      let runCmd := c.settings.runCmd.replace "%p" (toString c.settings.depth)
      let k := st1.nRunExec
      let st2 : PState :=
        { st1 with trace := st1.trace ++ [Event.warmupExec runCmd], nRunExec := k + 1 }
      if env.runOk k then
        if c.settings.runs < 0 then
          (.panicked "makeslice: len out of range", st2)
        else
          match benchLoop env runCmd 0 c.settings.runs.toNat st2 with
          | (.ok samples, st3) =>
            if samples.isEmpty then
              (.panicked "index out of range [0] with length 0", st3)
            else (.ok samples, st3)
          | (.error m, st3) => (.error m, st3)
          | (.panicked m, st3) => (.panicked m, st3)
      else
        (.error "Failed to pre-bench run", st2)

/-- Outcome of a pass (or of the whole run): normal completion,
`log.Fatalf` termination, or a runtime panic. -/
inductive PassResult where
  | done
  | fatal (msg : String)
  | panicked (msg : String)
deriving Repr, DecidableEq

/-- The loop body of `buildCommits` (main.go lines 243-248): sequential,
`log.Fatalf` on the first error. -/
def buildCommitsLoop (env : Env) (cfg : AppConfig) (cs : List Commit) (st : PState) :
    PassResult × PState :=
  match cs with
  | [] => (.done, st)
  | c :: rest =>
    match buildCommit env c cfg st with
    | (.ok _, st1) => buildCommitsLoop env cfg rest st1
    | (.error m, st1) => (.fatal ("Build error: " ++ m), st1)
    | (.panicked m, st1) => (.panicked m, st1)

/-- `buildCommits` (main.go lines 238-251). -/
def buildCommits (env : Env) (cfg : AppConfig) (st : PState) : PassResult × PState :=
  buildCommitsLoop env cfg cfg.commits { st with fs := mkDir st.fs (pathJoin cfg.pwd "build") }

/-- The loop body of `runCommits` (main.go lines 326-331). -/
def runCommitsLoop (env : Env) (cfg : AppConfig) (cs : List Commit) (st : PState) :
    PassResult × PState :=
  match cs with
  | [] => (.done, st)
  | c :: rest =>
    match runCommit env c cfg st with
    | (.ok _, st1) => runCommitsLoop env cfg rest st1
    | (.error m, st1) => (.fatal ("Run error: " ++ m), st1)
    | (.panicked m, st1) => (.panicked m, st1)

/-- `runCommits` (main.go lines 321-332). -/
def runCommits (env : Env) (cfg : AppConfig) (st : PState) : PassResult × PState :=
  runCommitsLoop env cfg cfg.commits { st with fs := mkDir st.fs (pathJoin cfg.pwd "build") }

/-- `main` after config loading (main.go lines 340-341): the build pass
over all commits, then — only if it completed — the benchmark pass. -/
def runPipeline (env : Env) (cfg : AppConfig) (st : PState) : PassResult × PState :=
  match buildCommits env cfg st with
  | (.done, st1) => runCommits env cfg st1
  | (r, st1) => (r, st1)

/-- The samples a fully successful benchmarking loop produces when its
first execution consumes run-counter index `k`: sample `j` is the elapsed
microseconds of execution `k + j` divided by 1000 (main.go line 304). -/
def sampleList (env : Env) (k n : Nat) : List ℚ :=
  (List.range n).map fun j => ((env.runMicros (k + j) : ℚ) / 1000)

/-- `st'` extends the trace of `st` by events all satisfying `P`. -/
def TraceExt (P : Event → Bool) (st st' : PState) : Prop :=
  ∃ δ, st'.trace = st.trace ++ δ ∧ δ.all P = true

/-! ## Event classification and ordering predicates -/

/-- Benchmark executions: the untimed warm-up and the timed runs. -/
def isBenchEvent : Event → Bool
  | .warmupExec _ => true
  | .timedExec _ => true
  | _ => false

/-- Build-phase work: clone, checkout, marker write, build command. -/
def isBuildPhaseEvent : Event → Bool
  | .cloneCall _ => true
  | .checkoutCall _ => true
  | .markerWrite _ _ => true
  | .buildExec _ => true
  | _ => false

/-- No build-phase event of any commit occurs after any benchmark
execution in the trace. -/
def noBuildAfterBench (tr : List Event) : Prop :=
  ∀ (i j : Nat) (hi : i < tr.length) (hj : j < tr.length), i < j →
    isBenchEvent (tr.get ⟨i, hi⟩) = true → isBuildPhaseEvent (tr.get ⟨j, hj⟩) = false

/-! ## Concrete fixtures used by closed theorems and witnesses -/

/-- A well-formed explicit commit reference: forty `a` characters. -/
def hashA : String := String.mk (List.replicate 40 'a')

/-- The hash `hashA` parses to. -/
def hashABytes : GitHash := ⟨decodeHexPairs (List.replicate 40 'a')⟩

/-- An environment in which every external effect succeeds and every run
takes 1500 microseconds. -/
def envAllOk : Env :=
  { listing := fun _ => some [⟨"HEAD", false, "", hashABytes⟩],
    cloneOk := fun _ => true, cloneLeavesDir := fun _ => false,
    checkoutOk := fun _ => true, buildOk := fun _ => true,
    runOk := fun _ => true, runMicros := fun _ => 1500 }

/-- Sample merged settings with one run. -/
def sA : Settings := ⟨1, 2, "make", "./bin/app %p"⟩

/-- Merged settings whose run count is zero. -/
def sZero : Settings := ⟨0, 2, "make", "./bin/app %p"⟩

/-- The workspace directory of `hashA` under pwd `/w`. -/
def commitDirA : String := "/w/build/" ++ hashA

/-- A commit pinned to the explicit reference `hashA`. -/
def cA : Commit := ⟨hashA, "x", sA⟩

/-- A commit on the symbolic HEAD reference. -/
def cHead : Commit := ⟨"HEAD", "h", sA⟩

/-- A commit with a malformed reference. -/
def cBad : Commit := ⟨"zz", "bad", sA⟩

/-- A commit whose merged run count is zero. -/
def cZero : Commit := ⟨hashA, "z", sZero⟩

/-- Config with the single explicit commit. -/
def cfgA : AppConfig := ⟨sA, "url", [cA], "/w"⟩

/-- Config with the single symbolic commit. -/
def cfgHead : AppConfig := ⟨sA, "url", [cHead], "/w"⟩

/-- Empty starting state. -/
def st0 : PState := ⟨⟨[], []⟩, [], 0, 0, 0, 0⟩

/-- State with the workspace and its bin directory present and no marker:
a full pipeline run from here succeeds without cloning. -/
def stHead : PState := ⟨⟨[commitDirA, commitDirA ++ "/bin"], []⟩, [], 0, 0, 0, 0⟩

/-- State with the workspace present and the marker holding exactly the
fingerprint of `sA`: the cache-hit situation. -/
def stHit : PState :=
  ⟨⟨[commitDirA], [(commitDirA ++ "/__bench", fingerprint sA)]⟩, [], 0, 0, 0, 0⟩

/-- State with the workspace present and no marker file. -/
def stNoMarker : PState := ⟨⟨[commitDirA], []⟩, [], 0, 0, 0, 0⟩

/-! ## Basic filesystem lemmas -/

theorem dirExists_mkDir_self (fs : FS) (p : String) : dirExists (mkDir fs p) p = true := by
  unfold dirExists mkDir
  split
  · assumption
  · simp [List.contains_cons]

theorem dirExists_writeFileFS (fs : FS) (p : String) (d : List Nat) (q : String) :
    dirExists (writeFileFS fs p d) q = dirExists fs q := rfl

theorem readFileFS_writeFileFS_self (fs : FS) (p : String) (d : List Nat) :
    readFileFS (writeFileFS fs p d) p = d := by
  simp [readFileFS, writeFileFS, List.lookup]

/-! ## Claim theorems -/

/-- C7: merging a commit-level settings record with the base record keeps
every non-zero/non-empty commit-level field and falls back to the base
value exactly for the fields holding the Go zero value; the record has no
other fields, so nothing else changes. -/
theorem applySettings_fieldwise (c b : Settings) :
    applySettings c b =
      { runs := if c.runs = 0 then b.runs else c.runs,
        depth := if c.depth = 0 then b.depth else c.depth,
        buildCmd := if c.buildCmd = "" then b.buildCmd else c.buildCmd,
        runCmd := if c.runCmd = "" then b.runCmd else c.runCmd } := by
  cases c with
  | mk r d bc rc =>
    unfold applySettings
    by_cases h1 : r = 0 <;> by_cases h2 : d = 0 <;>
      by_cases h3 : bc = "" <;> by_cases h4 : rc = "" <;>
      simp [h1, h2, h3, h4]

/-- C8: a reference other than the `"HEAD"` sentinel is resolved locally:
the state (hence the network-call trace) is untouched, a wrong length or a
non-hex character yields the parse error with no other effect, a
well-formed reference parses to its decoded bytes, and the outcome does
not depend on the environment or the state, so resolving twice yields the
same identifier. -/
theorem getHash_explicit_resolution (env env' : Env) (h : String) (st st' : PState)
    (hne : h ≠ "HEAD") :
    (getHash env h st).2 = st ∧
    ((h.length ≠ 40 ∨ h.toList.all isGoHexDigit = false) →
      (getHash env h st).1 = .error ("Failed to parse commit hash: " ++ h)) ∧
    ((h.length = 40 ∧ h.toList.all isGoHexDigit = true) →
      (getHash env h st).1 = .ok ⟨decodeHexPairs h.toList⟩) ∧
    (getHash env h st).1 = (getHash env' h st').1 := by
  unfold getHash fromHex
  rw [if_neg hne, if_neg hne]
  by_cases hv : h.length = 40 ∧ h.toList.all isGoHexDigit
  · rw [if_pos hv]
    refine ⟨rfl, ?_, fun _ => rfl, rfl⟩
    intro hbad
    rcases hbad with hb | hb
    · exact absurd hv.1 hb
    · rw [hv.2] at hb; cases hb
  · rw [if_neg hv]
    refine ⟨rfl, fun _ => rfl, ?_, rfl⟩
    intro hgood
    exact absurd ⟨hgood.1, hgood.2⟩ hv

/-- C8 witness: the malformed reference `"zz"` is rejected with the parse
error and no state change, and resolution of it is environment-independent. -/
theorem getHash_explicit_resolution_witness :
    (getHash envAllOk "zz" st0).2 = st0 ∧
    (("zz".length ≠ 40 ∨ "zz".toList.all isGoHexDigit = false) →
      (getHash envAllOk "zz" st0).1 = .error ("Failed to parse commit hash: " ++ "zz")) ∧
    (("zz".length = 40 ∧ "zz".toList.all isGoHexDigit = true) →
      (getHash envAllOk "zz" st0).1 = .ok ⟨decodeHexPairs "zz".toList⟩) ∧
    (getHash envAllOk "zz" st0).1 = (getHash envAllOk "zz" stHead).1 :=
  getHash_explicit_resolution envAllOk envAllOk "zz" st0 stHead (by decide)

/-- C1 is wrong about the code: at the concrete cache-hit input (workspace
present, marker file holding exactly the fingerprint of the serialized
settings) `buildCommit` does skip the build, but it returns the error
`"Error with Stat: <nil>"` produced by the shadowed-`err` slip at
main.go line 194/216 instead of returning successfully, so a second
invocation after a successful first build terminates the run. -/
theorem buildCommit_cache_hit_returns_error :
    readFileFS stHit.fs (pathJoin commitDirA "__bench") = fingerprint sA ∧
    (buildCommit envAllOk cA cfgA stHit).1 = GoResult.error "Error with Stat: <nil>" ∧
    (buildCommit envAllOk cA cfgA stHit).1 ≠ GoResult.ok () ∧
    (buildCommit envAllOk cA cfgA stHit).2 = stHit := by
  refine ⟨by decide, by decide, ?_, by decide⟩
  intro hcontra
  have : GoResult.error "Error with Stat: <nil>" = GoResult.ok () := by
    rw [← hcontra]; decide
  cases this

/-- C9 counterexample: a complete, successful pipeline run over a single
commit with the symbolic `"HEAD"` reference issues two remote-listing
calls — one in the build pass and one in the benchmark pass — not one. -/
theorem pipeline_symbolic_two_listings :
    (runPipeline envAllOk cfgHead stHead).1 = PassResult.done ∧
    (runPipeline envAllOk cfgHead stHead).2.nList = 2 ∧
    (runPipeline envAllOk cfgHead stHead).2.nList ≠ 1 := by
  refine ⟨by decide, by decide, ?_⟩
  intro hcontra
  have h2 : (runPipeline envAllOk cfgHead stHead).2.nList = 2 := by decide
  rw [h2] at hcontra
  cases hcontra

/-- A workspace directory already present short-circuits materialization:
success with a completely unchanged state (no clone, no checkout, no
validation of the directory's contents). -/
theorem ensureWorkspace_present (env : Env) (cfg : AppConfig) (hash : GitHash) (st : PState)
    (hdir : dirExists st.fs (commitDirOf cfg hash) = true) :
    ensureWorkspace env cfg hash st = (.ok (), st) := by
  simp [ensureWorkspace, hdir]

/-- C6: if the workspace directory exists, materialization performs no
clone and no checkout and returns successfully with the state untouched;
one call makes at most one clone attempt; and after any successful
materialization a second one is a no-op, so two consecutive
materializations of the same identifier perform at most one
clone+checkout. -/
theorem ensureWorkspace_idempotent (env env2 : Env) (cfg : AppConfig) (hash : GitHash)
    (st : PState) :
    (dirExists st.fs (commitDirOf cfg hash) = true →
      ensureWorkspace env cfg hash st = (.ok (), st)) ∧
    (ensureWorkspace env cfg hash st).2.nClone ≤ st.nClone + 1 ∧
    ((ensureWorkspace env cfg hash st).1 = .ok () →
      ensureWorkspace env2 cfg hash (ensureWorkspace env cfg hash st).2 =
        (.ok (), (ensureWorkspace env cfg hash st).2)) := by
  refine ⟨ensureWorkspace_present env cfg hash st, ?_, ?_⟩
  · by_cases hd : dirExists st.fs (commitDirOf cfg hash) = true
    · rw [ensureWorkspace_present env cfg hash st hd]
      exact Nat.le_succ _
    · rw [Bool.not_eq_true] at hd
      by_cases hcl : env.cloneOk st.nClone = true
      · by_cases hco : env.checkoutOk st.nClone = true
        · simp [ensureWorkspace, hd, hcl, hco]
        · rw [Bool.not_eq_true] at hco
          simp [ensureWorkspace, hd, hcl, hco]
      · rw [Bool.not_eq_true] at hcl
        simp [ensureWorkspace, hd, hcl]
  · intro hok
    by_cases hd : dirExists st.fs (commitDirOf cfg hash) = true
    · rw [ensureWorkspace_present env cfg hash st hd]
      exact ensureWorkspace_present env2 cfg hash st hd
    · rw [Bool.not_eq_true] at hd
      have hcl : env.cloneOk st.nClone = true := by
        by_contra hc
        rw [Bool.not_eq_true] at hc
        simp [ensureWorkspace, hd, hc] at hok
      have hco : env.checkoutOk st.nClone = true := by
        by_contra hc
        rw [Bool.not_eq_true] at hc
        simp [ensureWorkspace, hd, hcl, hc] at hok
      have hres : ensureWorkspace env cfg hash st =
          (.ok (), ⟨mkDir st.fs (commitDirOf cfg hash),
            st.trace ++ [Event.cloneCall (commitDirOf cfg hash)] ++
              [Event.checkoutCall (commitDirOf cfg hash)],
            st.nList, st.nClone + 1, st.nBuild, st.nRunExec⟩) := by
        simp [ensureWorkspace, hd, hcl, hco]
      rw [hres]
      exact ensureWorkspace_present env2 cfg hash _ (dirExists_mkDir_self _ _)

/-- C6 witness: with the workspace of `hashA` already on disk, one
materialization is a no-op and so is a second one after it. -/
theorem ensureWorkspace_idempotent_witness :
    ensureWorkspace envAllOk cfgA hashABytes stHit = (.ok (), stHit) ∧
    ensureWorkspace envAllOk cfgA hashABytes (ensureWorkspace envAllOk cfgA hashABytes stHit).2 =
      (.ok (), (ensureWorkspace envAllOk cfgA hashABytes stHit).2) := by
  refine ⟨(ensureWorkspace_idempotent envAllOk envAllOk cfgA hashABytes stHit).1 (by decide), ?_⟩
  exact (ensureWorkspace_idempotent envAllOk envAllOk cfgA hashABytes stHit).2.2 (by decide)

/-- The shared tail of both build paths: the marker write lands in the
filesystem and in the trace strictly before the build command runs, and a
failing build command still leaves the marker updated. -/
theorem writeAndBuild_spec (env : Env) (c : Commit) (commitDir shaFile : String)
    (sha : List Nat) (st : PState) (hdir : dirExists st.fs commitDir = true) :
    (writeAndBuild env c commitDir shaFile sha st).2.trace =
      st.trace ++ [Event.markerWrite shaFile sha, Event.buildExec c.settings.buildCmd] ∧
    readFileFS (writeAndBuild env c commitDir shaFile sha st).2.fs shaFile = sha ∧
    (env.buildOk st.nBuild = false →
      (writeAndBuild env c commitDir shaFile sha st).1 = .error "Error building commit") ∧
    (env.buildOk st.nBuild = true →
      (writeAndBuild env c commitDir shaFile sha st).1 = .ok ()) := by
  have hd1 : dirExists (writeFileFS st.fs shaFile sha) commitDir = true := hdir
  by_cases hb : env.buildOk st.nBuild = true
  · simp [writeAndBuild, hd1, hb, readFileFS_writeFileFS_self]
  · rw [Bool.not_eq_true] at hb
    simp [writeAndBuild, hd1, hb, readFileFS_writeFileFS_self]

/-- C2: on both build paths (marker absent, or marker present with a
different fingerprint) the new fingerprint is written to the marker file
before the build command runs — the trace records the marker write
strictly before the build execution — so a failing build command returns
the build error while the marker file already holds the new fingerprint. -/
theorem cacheAndBuild_marker_before_build (env : Env) (c : Commit) (commitDir : String)
    (st : PState)
    (hmiss : fileExists st.fs (pathJoin commitDir "__bench") = false ∨
      readFileFS st.fs (pathJoin commitDir "__bench") ≠ fingerprint c.settings)
    (hdir : dirExists st.fs commitDir = true) :
    (cacheAndBuild env c commitDir st).2.trace =
      st.trace ++ [Event.markerWrite (pathJoin commitDir "__bench") (fingerprint c.settings),
        Event.buildExec c.settings.buildCmd] ∧
    readFileFS (cacheAndBuild env c commitDir st).2.fs (pathJoin commitDir "__bench") =
      fingerprint c.settings ∧
    (env.buildOk st.nBuild = false →
      (cacheAndBuild env c commitDir st).1 = .error "Error building commit") ∧
    (env.buildOk st.nBuild = true → (cacheAndBuild env c commitDir st).1 = .ok ()) := by
  have hred : cacheAndBuild env c commitDir st =
      writeAndBuild env c commitDir (pathJoin commitDir "__bench") (fingerprint c.settings) st := by
    by_cases hfe : fileExists st.fs (pathJoin commitDir "__bench") = true
    · rcases hmiss with hm | hm
      · rw [hfe] at hm; cases hm
      · simp [cacheAndBuild, hfe, hm]
    · rw [Bool.not_eq_true] at hfe
      simp [cacheAndBuild, hfe]
  rw [hred]
  exact writeAndBuild_spec env c commitDir _ _ st hdir

/-- C2 witness: with the workspace present and no marker, the cache step
writes the fingerprint before running the (successful) build. -/
theorem cacheAndBuild_marker_before_build_witness :
    (cacheAndBuild envAllOk cA commitDirA stNoMarker).2.trace =
      stNoMarker.trace ++
        [Event.markerWrite (pathJoin commitDirA "__bench") (fingerprint cA.settings),
         Event.buildExec cA.settings.buildCmd] ∧
    readFileFS (cacheAndBuild envAllOk cA commitDirA stNoMarker).2.fs
      (pathJoin commitDirA "__bench") = fingerprint cA.settings ∧
    (envAllOk.buildOk stNoMarker.nBuild = false →
      (cacheAndBuild envAllOk cA commitDirA stNoMarker).1 = .error "Error building commit") ∧
    (envAllOk.buildOk stNoMarker.nBuild = true →
      (cacheAndBuild envAllOk cA commitDirA stNoMarker).1 = .ok ()) :=
  cacheAndBuild_marker_before_build envAllOk cA commitDirA stNoMarker
    (Or.inl (by decide)) (by decide)

/-! ## Benchmark loop characterization -/

theorem sampleList_succ (env : Env) (k n : Nat) :
    sampleList env k (n + 1) =
      ((env.runMicros k : ℚ) / 1000) :: sampleList env (k + 1) n := by
  simp only [sampleList, List.range_succ_eq_map, List.map_cons, List.map_map, Nat.add_zero]
  congr 1
  apply List.map_congr_left
  intro j _
  simp only [Function.comp]
  have hkj : k + Nat.succ j = k + 1 + j := by omega
  rw [hkj]

theorem benchLoop_all_ok (env : Env) (cmd : String) :
    ∀ (n i : Nat) (st : PState), (∀ j, j < n → env.runOk (st.nRunExec + j) = true) →
    benchLoop env cmd i n st =
      (.ok (sampleList env st.nRunExec n),
       { st with trace := st.trace ++ List.replicate n (Event.timedExec cmd),
                 nRunExec := st.nRunExec + n }) := by
  intro n
  induction n with
  | zero =>
    intro i st _
    simp [benchLoop, sampleList]
  | succ n ih =>
    intro i st hall
    have hk : env.runOk st.nRunExec = true := by
      have := hall 0 (Nat.succ_pos n)
      simpa using this
    unfold benchLoop
    rw [if_pos hk]
    rw [ih (i + 1) { st with trace := st.trace ++ [Event.timedExec cmd],
                             nRunExec := st.nRunExec + 1 }
        (by intro j hj
            have := hall (j + 1) (Nat.succ_lt_succ hj)
            simpa [Nat.add_assoc, Nat.add_comm 1 j] using this)]
    rw [sampleList_succ]
    simp [List.replicate_succ, Nat.add_assoc, Nat.add_comm 1 n]

theorem benchLoop_fails (env : Env) (cmd : String) :
    ∀ (n i : Nat) (st : PState), (∃ j, j < n ∧ env.runOk (st.nRunExec + j) = false) →
    ∃ m st', benchLoop env cmd i n st = (.error m, st') := by
  intro n
  induction n with
  | zero =>
    rintro i st ⟨j, hj, -⟩
    exact absurd hj (Nat.not_lt_zero j)
  | succ n ih =>
    rintro i st ⟨j, hj, hf⟩
    by_cases hk : env.runOk st.nRunExec = true
    · have hj0 : j ≠ 0 := by
        rintro rfl
        rw [Nat.add_zero, hk] at hf
        cases hf
      obtain ⟨j', rfl⟩ := Nat.exists_eq_succ_of_ne_zero hj0
      obtain ⟨m, st', hm⟩ := ih (i + 1)
        { st with trace := st.trace ++ [Event.timedExec cmd], nRunExec := st.nRunExec + 1 }
        ⟨j', by omega, by
          have hkj : st.nRunExec + 1 + j' = st.nRunExec + (j' + 1) := by omega
          simp only [hkj]
          exact hf⟩
      refine ⟨m, st', ?_⟩
      unfold benchLoop
      rw [if_pos hk, hm]
    · rw [Bool.not_eq_true] at hk
      refine ⟨"Failed to perform run " ++ toString (i + 1),
        { st with trace := st.trace ++ [Event.timedExec cmd], nRunExec := st.nRunExec + 1 }, ?_⟩
      unfold benchLoop
      simp [hk]

/-- C10: when the merged run count is zero or negative (and the stages
before the sample loop succeed: hash resolution, both directory checks,
and the warm-up run), `runCommit` does not return an error result but
panics — at the sample-slice allocation for a negative count, and at the
`runs[0]` result print for a zero count. -/
theorem runCommit_nonpositive_runs_panics (env : Env) (c : Commit) (cfg : AppConfig)
    (st st1 : PState) (hsh : GitHash)
    (hgh : getHash env c.hash st = (.ok hsh, st1))
    (hdir : dirExists st1.fs (commitDirOf cfg hsh) = true)
    (hbin : dirExists st1.fs (pathJoin (commitDirOf cfg hsh) "bin") = true)
    (hwarm : env.runOk st1.nRunExec = true)
    (hruns : c.settings.runs ≤ 0) :
    (c.settings.runs < 0 →
      (runCommit env c cfg st).1 = .panicked "makeslice: len out of range") ∧
    (c.settings.runs = 0 →
      (runCommit env c cfg st).1 = .panicked "index out of range [0] with length 0") ∧
    (∃ m, (runCommit env c cfg st).1 = .panicked m) := by
  have h1 : c.settings.runs < 0 →
      (runCommit env c cfg st).1 = .panicked "makeslice: len out of range" := by
    intro hlt
    unfold runCommit
    rw [hgh]
    simp [hdir, hbin, hwarm, hlt]
  have h2 : c.settings.runs = 0 →
      (runCommit env c cfg st).1 = .panicked "index out of range [0] with length 0" := by
    intro h0
    have hnot : ¬ (c.settings.runs < 0) := by omega
    unfold runCommit
    rw [hgh]
    simp [hdir, hbin, hwarm, h0, hnot, benchLoop]
  refine ⟨h1, h2, ?_⟩
  rcases lt_or_eq_of_le hruns with h | h
  · exact ⟨_, h1 h⟩
  · exact ⟨_, h2 h⟩

/-- C10 witness: the commit `cZero` with merged run count 0 panics at the
result print instead of returning an error. -/
theorem runCommit_nonpositive_runs_panics_witness :
    (cZero.settings.runs < 0 →
      (runCommit envAllOk cZero cfgA stHead).1 = .panicked "makeslice: len out of range") ∧
    (cZero.settings.runs = 0 →
      (runCommit envAllOk cZero cfgA stHead).1 =
        .panicked "index out of range [0] with length 0") ∧
    (∃ m, (runCommit envAllOk cZero cfgA stHead).1 = .panicked m) :=
  runCommit_nonpositive_runs_panics envAllOk cZero cfgA stHead stHead hashABytes
    (by decide) (by decide) (by decide) (by decide) (by decide)

/-- C4: with merged run count `n > 0` (and successful resolution and
directory checks), if the warm-up and all `n` timed executions succeed the
benchmark returns exactly the `n` samples — sample `j` being the elapsed
microseconds of timed run `j` divided by 1000, hence non-negative — and
the trace records exactly one warm-up followed by exactly `n` timed runs;
if the warm-up or any timed run fails, the result is an error and no
samples are returned. -/
theorem runCommit_sample_count (env : Env) (c : Commit) (cfg : AppConfig)
    (st st1 : PState) (hsh : GitHash) (n : Nat)
    (hgh : getHash env c.hash st = (.ok hsh, st1))
    (hdir : dirExists st1.fs (commitDirOf cfg hsh) = true)
    (hbin : dirExists st1.fs (pathJoin (commitDirOf cfg hsh) "bin") = true)
    (hn : c.settings.runs = (n : Int))
    (hpos : 0 < n) :
    ((∀ j, j ≤ n → env.runOk (st1.nRunExec + j) = true) →
      (runCommit env c cfg st).1 = .ok (sampleList env (st1.nRunExec + 1) n) ∧
      (sampleList env (st1.nRunExec + 1) n).length = n ∧
      (∀ s ∈ sampleList env (st1.nRunExec + 1) n, 0 ≤ s) ∧
      (runCommit env c cfg st).2.trace =
        st1.trace ++
          Event.warmupExec (c.settings.runCmd.replace "%p" (toString c.settings.depth)) ::
          List.replicate n
            (Event.timedExec (c.settings.runCmd.replace "%p" (toString c.settings.depth)))) ∧
    ((∃ j, j ≤ n ∧ env.runOk (st1.nRunExec + j) = false) →
      ∃ m, (runCommit env c cfg st).1 = .error m) := by
  have hnot : ¬ (c.settings.runs < 0) := by omega
  have htn : c.settings.runs.toNat = n := by omega
  constructor
  · intro hall
    have hwarm : env.runOk st1.nRunExec = true := by
      have := hall 0 (Nat.zero_le n)
      simpa using this
    have hb := benchLoop_all_ok env (c.settings.runCmd.replace "%p" (toString c.settings.depth)) n 0
      { st1 with
          trace := st1.trace ++
            [Event.warmupExec (c.settings.runCmd.replace "%p" (toString c.settings.depth))],
          nRunExec := st1.nRunExec + 1 }
      (by
        intro j hj
        have := hall (j + 1) (by omega)
        have hkj : st1.nRunExec + 1 + j = st1.nRunExec + (j + 1) := by omega
        simpa [hkj] using this)
    have hlen : (sampleList env (st1.nRunExec + 1) n).length = n := by
      simp [sampleList]
    have hne : (sampleList env (st1.nRunExec + 1) n).isEmpty = false := by
      rcases n with - | m
      · omega
      · simp [sampleList_succ]
    have hnn : ∀ s ∈ sampleList env (st1.nRunExec + 1) n, 0 ≤ s := by
      intro s hs
      simp only [sampleList, List.mem_map, List.mem_range] at hs
      obtain ⟨j, -, rfl⟩ := hs
      positivity
    refine ⟨?_, hlen, hnn, ?_⟩
    · unfold runCommit
      rw [hgh]
      simp [hdir, hbin, hwarm, hnot, htn, hb, hne]
    · unfold runCommit
      rw [hgh]
      simp [hdir, hbin, hwarm, hnot, htn, hb, hne, List.append_assoc]
  · rintro ⟨j, hjn, hjf⟩
    by_cases hwarm : env.runOk st1.nRunExec = true
    · have hj0 : j ≠ 0 := by
        rintro rfl
        rw [Nat.add_zero, hwarm] at hjf
        cases hjf
      obtain ⟨j', rfl⟩ := Nat.exists_eq_succ_of_ne_zero hj0
      obtain ⟨m, st', hm⟩ := benchLoop_fails env
        (c.settings.runCmd.replace "%p" (toString c.settings.depth)) n 0
        { st1 with
            trace := st1.trace ++
              [Event.warmupExec (c.settings.runCmd.replace "%p" (toString c.settings.depth))],
            nRunExec := st1.nRunExec + 1 }
        ⟨j', by omega, by
          have hkj : st1.nRunExec + 1 + j' = st1.nRunExec + (j' + 1) := by omega
          simp only [hkj]
          exact hjf⟩
      refine ⟨m, ?_⟩
      unfold runCommit
      rw [hgh]
      simp [hdir, hbin, hwarm, hnot, htn, hm]
    · rw [Bool.not_eq_true] at hwarm
      refine ⟨"Failed to pre-bench run", ?_⟩
      unfold runCommit
      rw [hgh]
      simp [hdir, hbin, hwarm]

/-- C4 witness: the commit `cA` with run count 1 in the all-success
environment yields exactly one non-negative sample after one warm-up. -/
theorem runCommit_sample_count_witness :
    ((∀ j, j ≤ 1 → envAllOk.runOk (stHead.nRunExec + j) = true) →
      (runCommit envAllOk cA cfgA stHead).1 = .ok (sampleList envAllOk (stHead.nRunExec + 1) 1) ∧
      (sampleList envAllOk (stHead.nRunExec + 1) 1).length = 1 ∧
      (∀ s ∈ sampleList envAllOk (stHead.nRunExec + 1) 1, 0 ≤ s) ∧
      (runCommit envAllOk cA cfgA stHead).2.trace =
        stHead.trace ++
          Event.warmupExec (cA.settings.runCmd.replace "%p" (toString cA.settings.depth)) ::
          List.replicate 1
            (Event.timedExec (cA.settings.runCmd.replace "%p" (toString cA.settings.depth)))) ∧
    ((∃ j, j ≤ 1 ∧ envAllOk.runOk (stHead.nRunExec + j) = false) →
      ∃ m, (runCommit envAllOk cA cfgA stHead).1 = .error m) :=
  runCommit_sample_count envAllOk cA cfgA stHead stHead hashABytes 1
    (by decide) (by decide) (by decide) (by decide) (by decide)

/-! ## Remote-listing counting (symbolic resolution) -/


theorem ensureWorkspace_nList (env : Env) (cfg : AppConfig) (hash : GitHash) (st : PState) :
    (ensureWorkspace env cfg hash st).2.nList = st.nList := by
  unfold ensureWorkspace
  dsimp only
  repeat' split
  all_goals rfl

theorem writeAndBuild_nList (env : Env) (c : Commit) (commitDir shaFile : String)
    (sha : List Nat) (st : PState) :
    (writeAndBuild env c commitDir shaFile sha st).2.nList = st.nList := by
  unfold writeAndBuild
  dsimp only
  repeat' split
  all_goals rfl

theorem cacheAndBuild_nList (env : Env) (c : Commit) (commitDir : String) (st : PState) :
    (cacheAndBuild env c commitDir st).2.nList = st.nList := by
  unfold cacheAndBuild
  dsimp only
  repeat' split
  all_goals first
    | rfl
    | apply writeAndBuild_nList

theorem benchLoop_nList (env : Env) (cmd : String) :
    ∀ (n i : Nat) (st : PState), (benchLoop env cmd i n st).2.nList = st.nList := by
  intro n
  induction n with
  | zero => intro i st; rfl
  | succ n ih =>
    intro i st
    unfold benchLoop
    dsimp only
    split
    · rcases hb : benchLoop env cmd (i + 1) n
        { st with trace := st.trace ++ [Event.timedExec cmd], nRunExec := st.nRunExec + 1 }
        with ⟨r, st2⟩
      have h2 : st2.nList = st.nList := by
        have := ih (i + 1)
          { st with trace := st.trace ++ [Event.timedExec cmd], nRunExec := st.nRunExec + 1 }
        rw [hb] at this
        exact this
      cases r <;> simpa using h2
    · rfl

theorem getHash_head_nList (env : Env) (st : PState) :
    (getHash env "HEAD" st).2.nList = st.nList + 1 := by
  unfold getHash
  rw [if_pos rfl]
  dsimp only
  cases hl : env.listing st.nList with
  | none => rfl
  | some refs =>
    dsimp only
    split <;> rfl

theorem buildCommit_nList (env : Env) (c : Commit) (cfg : AppConfig) (st : PState) :
    (buildCommit env c cfg st).2.nList = (getHash env c.hash st).2.nList := by
  unfold buildCommit
  rcases hg : getHash env c.hash st with ⟨r, st1⟩
  cases r with
  | error m => rfl
  | panicked m => rfl
  | ok hash =>
    dsimp only
    rcases he : ensureWorkspace env cfg hash st1 with ⟨r2, st2⟩
    have h2 : st2.nList = st1.nList := by
      have := ensureWorkspace_nList env cfg hash st1
      rw [he] at this
      exact this
    cases r2 with
    | ok u =>
      dsimp only
      rw [cacheAndBuild_nList]
      exact h2
    | error m => simpa using h2
    | panicked m => simpa using h2

theorem runCommit_nList (env : Env) (c : Commit) (cfg : AppConfig) (st : PState) :
    (runCommit env c cfg st).2.nList = (getHash env c.hash st).2.nList := by
  unfold runCommit
  rcases hg : getHash env c.hash st with ⟨r, st1⟩
  cases r with
  | error m => rfl
  | panicked m => rfl
  | ok hash =>
    dsimp only
    split
    · rfl
    · split
      · rfl
      · split
        · split
          · rfl
          · rcases hb : benchLoop env
              (c.settings.runCmd.replace "%p" (toString c.settings.depth)) 0
              c.settings.runs.toNat
              { st1 with
                  trace := st1.trace ++
                    [Event.warmupExec (c.settings.runCmd.replace "%p" (toString c.settings.depth))],
                  nRunExec := st1.nRunExec + 1 }
              with ⟨r3, st3⟩
            have h3 : st3.nList = st1.nList := by
              have := benchLoop_nList env
                (c.settings.runCmd.replace "%p" (toString c.settings.depth))
                c.settings.runs.toNat 0
                { st1 with
                    trace := st1.trace ++
                      [Event.warmupExec (c.settings.runCmd.replace "%p" (toString c.settings.depth))],
                    nRunExec := st1.nRunExec + 1 }
              rw [hb] at this
              exact this
            cases r3 with
            | ok samples =>
              dsimp only
              split <;> simpa using h3
            | error m => simpa using h3
            | panicked m => simpa using h3
        · rfl

/-- C9 amended: for a commit whose reference is the symbolic `"HEAD"`
sentinel, the build pass (`buildCommit`) issues exactly one remote-listing
call for it and the benchmark pass (`runCommit`) issues exactly one more,
so a complete pipeline run issues two listing calls for that commit, not
one. -/
theorem symbolic_listing_once_per_pass (env : Env) (c : Commit) (cfg : AppConfig) (st : PState)
    (hhead : c.hash = "HEAD") :
    (buildCommit env c cfg st).2.nList = st.nList + 1 ∧
    (runCommit env c cfg st).2.nList = st.nList + 1 := by
  constructor
  · rw [buildCommit_nList, hhead, getHash_head_nList]
  · rw [runCommit_nList, hhead, getHash_head_nList]

/-- C9 amended witness: the symbolic commit in the concrete run. -/
theorem symbolic_listing_once_per_pass_witness :
    (buildCommit envAllOk cHead cfgHead stHead).2.nList = stHead.nList + 1 ∧
    (runCommit envAllOk cHead cfgHead stHead).2.nList = stHead.nList + 1 :=
  symbolic_listing_once_per_pass envAllOk cHead cfgHead stHead rfl

/-! ## Trace ordering and fail-fast machinery -/

theorem traceExt_trans {P : Event → Bool} {st1 st2 st3 : PState}
    (h1 : TraceExt P st1 st2) (h2 : TraceExt P st2 st3) : TraceExt P st1 st3 := by
  obtain ⟨d1, e1, a1⟩ := h1
  obtain ⟨d2, e2, a2⟩ := h2
  exact ⟨d1 ++ d2, by rw [e2, e1, List.append_assoc], by simp [List.all_append, a1, a2]⟩

theorem getHash_traceExt (P : Event → Bool) (hP : P Event.remoteListCall = true)
    (env : Env) (h : String) (st : PState) : TraceExt P st (getHash env h st).2 := by
  unfold getHash
  dsimp only
  split
  · cases hl : env.listing st.nList with
    | none => exact ⟨[Event.remoteListCall], rfl, by simp [hP]⟩
    | some refs =>
      dsimp only
      split
      · exact ⟨[Event.remoteListCall], rfl, by simp [hP]⟩
      · exact ⟨[Event.remoteListCall], rfl, by simp [hP]⟩
  · split
    · exact ⟨[], by simp, rfl⟩
    · exact ⟨[], by simp, rfl⟩

theorem ensureWorkspace_traceExt (P : Event → Bool)
    (hPc : ∀ d, P (Event.cloneCall d) = true)
    (hPk : ∀ d, P (Event.checkoutCall d) = true)
    (env : Env) (cfg : AppConfig) (hash : GitHash) (st : PState) :
    TraceExt P st (ensureWorkspace env cfg hash st).2 := by
  unfold ensureWorkspace
  dsimp only
  split
  · exact ⟨[], by simp, rfl⟩
  · split
    · split
      · exact ⟨[Event.cloneCall (commitDirOf cfg hash),
          Event.checkoutCall (commitDirOf cfg hash)], by simp, by simp [hPc, hPk]⟩
      · exact ⟨[Event.cloneCall (commitDirOf cfg hash),
          Event.checkoutCall (commitDirOf cfg hash)], by simp, by simp [hPc, hPk]⟩
    · exact ⟨[Event.cloneCall (commitDirOf cfg hash)], rfl, by simp [hPc]⟩

theorem writeAndBuild_traceExt (P : Event → Bool)
    (hPm : ∀ p d, P (Event.markerWrite p d) = true)
    (hPb : ∀ cm, P (Event.buildExec cm) = true)
    (env : Env) (c : Commit) (commitDir shaFile : String) (sha : List Nat) (st : PState) :
    TraceExt P st (writeAndBuild env c commitDir shaFile sha st).2 := by
  unfold writeAndBuild
  dsimp only
  split
  · split
    · exact ⟨[Event.markerWrite shaFile sha, Event.buildExec c.settings.buildCmd],
        by simp, by simp [hPm, hPb]⟩
    · exact ⟨[Event.markerWrite shaFile sha, Event.buildExec c.settings.buildCmd],
        by simp, by simp [hPm, hPb]⟩
  · exact ⟨[Event.markerWrite shaFile sha], rfl, by simp [hPm]⟩

theorem cacheAndBuild_traceExt (P : Event → Bool)
    (hPm : ∀ p d, P (Event.markerWrite p d) = true)
    (hPb : ∀ cm, P (Event.buildExec cm) = true)
    (env : Env) (c : Commit) (commitDir : String) (st : PState) :
    TraceExt P st (cacheAndBuild env c commitDir st).2 := by
  unfold cacheAndBuild
  dsimp only
  split
  · split
    · exact writeAndBuild_traceExt P hPm hPb env c commitDir _ _ st
    · exact ⟨[], by simp, rfl⟩
  · exact writeAndBuild_traceExt P hPm hPb env c commitDir _ _ st

theorem buildCommit_traceExt (P : Event → Bool)
    (hP1 : P Event.remoteListCall = true)
    (hPc : ∀ d, P (Event.cloneCall d) = true)
    (hPk : ∀ d, P (Event.checkoutCall d) = true)
    (hPm : ∀ p d, P (Event.markerWrite p d) = true)
    (hPb : ∀ cm, P (Event.buildExec cm) = true)
    (env : Env) (c : Commit) (cfg : AppConfig) (st : PState) :
    TraceExt P st (buildCommit env c cfg st).2 := by
  unfold buildCommit
  rcases hg : getHash env c.hash st with ⟨r, st1⟩
  have t1 : TraceExt P st st1 := by
    have := getHash_traceExt P hP1 env c.hash st
    rw [hg] at this
    exact this
  cases r with
  | error m => exact t1
  | panicked m => exact t1
  | ok hash =>
    dsimp only
    rcases he : ensureWorkspace env cfg hash st1 with ⟨r2, st2⟩
    have t2 : TraceExt P st1 st2 := by
      have := ensureWorkspace_traceExt P hPc hPk env cfg hash st1
      rw [he] at this
      exact this
    cases r2 with
    | ok u =>
      exact traceExt_trans (traceExt_trans t1 t2)
        (cacheAndBuild_traceExt P hPm hPb env c (commitDirOf cfg hash) st2)
    | error m => exact traceExt_trans t1 t2
    | panicked m => exact traceExt_trans t1 t2

theorem benchLoop_traceExt (P : Event → Bool)
    (hPt : ∀ cm, P (Event.timedExec cm) = true)
    (env : Env) (cmd : String) :
    ∀ (n i : Nat) (st : PState), TraceExt P st (benchLoop env cmd i n st).2 := by
  intro n
  induction n with
  | zero => intro i st; exact ⟨[], by simp [benchLoop], rfl⟩
  | succ n ih =>
    intro i st
    unfold benchLoop
    dsimp only
    split
    · rcases hb : benchLoop env cmd (i + 1) n
        { st with trace := st.trace ++ [Event.timedExec cmd], nRunExec := st.nRunExec + 1 }
        with ⟨r, st2⟩
      have t2 : TraceExt P
          { st with trace := st.trace ++ [Event.timedExec cmd], nRunExec := st.nRunExec + 1 }
          st2 := by
        have := ih (i + 1)
          { st with trace := st.trace ++ [Event.timedExec cmd], nRunExec := st.nRunExec + 1 }
        rw [hb] at this
        exact this
      have t1 : TraceExt P st
          { st with trace := st.trace ++ [Event.timedExec cmd], nRunExec := st.nRunExec + 1 } :=
        ⟨[Event.timedExec cmd], rfl, by simp [hPt]⟩
      cases r with
      | ok rest => exact traceExt_trans t1 t2
      | error m => exact traceExt_trans t1 t2
      | panicked m => exact traceExt_trans t1 t2
    · exact ⟨[Event.timedExec cmd], rfl, by simp [hPt]⟩

theorem runCommit_traceExt (P : Event → Bool)
    (hP1 : P Event.remoteListCall = true)
    (hPw : ∀ cm, P (Event.warmupExec cm) = true)
    (hPt : ∀ cm, P (Event.timedExec cm) = true)
    (env : Env) (c : Commit) (cfg : AppConfig) (st : PState) :
    TraceExt P st (runCommit env c cfg st).2 := by
  unfold runCommit
  rcases hg : getHash env c.hash st with ⟨r, st1⟩
  have t1 : TraceExt P st st1 := by
    have := getHash_traceExt P hP1 env c.hash st
    rw [hg] at this
    exact this
  cases r with
  | error m => exact t1
  | panicked m => exact t1
  | ok hash =>
    dsimp only
    split
    · exact t1
    · split
      · exact t1
      · have tw : TraceExt P st1
            { st1 with
                trace := st1.trace ++
                  [Event.warmupExec (c.settings.runCmd.replace "%p" (toString c.settings.depth))],
                nRunExec := st1.nRunExec + 1 } :=
          ⟨[Event.warmupExec (c.settings.runCmd.replace "%p" (toString c.settings.depth))],
            rfl, by simp [hPw]⟩
        split
        · split
          · exact traceExt_trans t1 tw
          · rcases hb : benchLoop env
              (c.settings.runCmd.replace "%p" (toString c.settings.depth)) 0
              c.settings.runs.toNat
              { st1 with
                  trace := st1.trace ++
                    [Event.warmupExec (c.settings.runCmd.replace "%p" (toString c.settings.depth))],
                  nRunExec := st1.nRunExec + 1 }
              with ⟨r3, st3⟩
            have t3 : TraceExt P
                { st1 with
                    trace := st1.trace ++
                      [Event.warmupExec (c.settings.runCmd.replace "%p" (toString c.settings.depth))],
                    nRunExec := st1.nRunExec + 1 }
                st3 := by
              have := benchLoop_traceExt P hPt env
                (c.settings.runCmd.replace "%p" (toString c.settings.depth))
                c.settings.runs.toNat 0
                { st1 with
                    trace := st1.trace ++
                      [Event.warmupExec (c.settings.runCmd.replace "%p" (toString c.settings.depth))],
                    nRunExec := st1.nRunExec + 1 }
              rw [hb] at this
              exact this
            cases r3 with
            | ok samples =>
              dsimp only
              split
              · exact traceExt_trans (traceExt_trans t1 tw) t3
              · exact traceExt_trans (traceExt_trans t1 tw) t3
            | error m => exact traceExt_trans (traceExt_trans t1 tw) t3
            | panicked m => exact traceExt_trans (traceExt_trans t1 tw) t3
        · exact traceExt_trans t1 tw

theorem buildCommitsLoop_traceExt (P : Event → Bool)
    (hP1 : P Event.remoteListCall = true)
    (hPc : ∀ d, P (Event.cloneCall d) = true)
    (hPk : ∀ d, P (Event.checkoutCall d) = true)
    (hPm : ∀ p d, P (Event.markerWrite p d) = true)
    (hPb : ∀ cm, P (Event.buildExec cm) = true)
    (env : Env) (cfg : AppConfig) :
    ∀ (cs : List Commit) (st : PState), TraceExt P st (buildCommitsLoop env cfg cs st).2 := by
  intro cs
  induction cs with
  | nil => intro st; exact ⟨[], by simp [buildCommitsLoop], rfl⟩
  | cons c rest ih =>
    intro st
    unfold buildCommitsLoop
    rcases hb : buildCommit env c cfg st with ⟨r, st1⟩
    have t1 : TraceExt P st st1 := by
      have := buildCommit_traceExt P hP1 hPc hPk hPm hPb env c cfg st
      rw [hb] at this
      exact this
    cases r with
    | ok u => exact traceExt_trans t1 (ih st1)
    | error m => exact t1
    | panicked m => exact t1

theorem buildCommits_traceExt (P : Event → Bool)
    (hP1 : P Event.remoteListCall = true)
    (hPc : ∀ d, P (Event.cloneCall d) = true)
    (hPk : ∀ d, P (Event.checkoutCall d) = true)
    (hPm : ∀ p d, P (Event.markerWrite p d) = true)
    (hPb : ∀ cm, P (Event.buildExec cm) = true)
    (env : Env) (cfg : AppConfig) (st : PState) :
    TraceExt P st (buildCommits env cfg st).2 := by
  unfold buildCommits
  exact buildCommitsLoop_traceExt P hP1 hPc hPk hPm hPb env cfg cfg.commits
    { st with fs := mkDir st.fs (pathJoin cfg.pwd "build") }

theorem runCommitsLoop_traceExt (P : Event → Bool)
    (hP1 : P Event.remoteListCall = true)
    (hPw : ∀ cm, P (Event.warmupExec cm) = true)
    (hPt : ∀ cm, P (Event.timedExec cm) = true)
    (env : Env) (cfg : AppConfig) :
    ∀ (cs : List Commit) (st : PState), TraceExt P st (runCommitsLoop env cfg cs st).2 := by
  intro cs
  induction cs with
  | nil => intro st; exact ⟨[], by simp [runCommitsLoop], rfl⟩
  | cons c rest ih =>
    intro st
    unfold runCommitsLoop
    rcases hb : runCommit env c cfg st with ⟨r, st1⟩
    have t1 : TraceExt P st st1 := by
      have := runCommit_traceExt P hP1 hPw hPt env c cfg st
      rw [hb] at this
      exact this
    cases r with
    | ok u => exact traceExt_trans t1 (ih st1)
    | error m => exact t1
    | panicked m => exact t1

theorem runCommits_traceExt (P : Event → Bool)
    (hP1 : P Event.remoteListCall = true)
    (hPw : ∀ cm, P (Event.warmupExec cm) = true)
    (hPt : ∀ cm, P (Event.timedExec cm) = true)
    (env : Env) (cfg : AppConfig) (st : PState) :
    TraceExt P st (runCommits env cfg st).2 := by
  unfold runCommits
  exact runCommitsLoop_traceExt P hP1 hPw hPt env cfg cfg.commits
    { st with fs := mkDir st.fs (pathJoin cfg.pwd "build") }

theorem noBuildAfterBench_append (A B : List Event)
    (hA : A.all (fun e => !isBenchEvent e) = true)
    (hB : B.all (fun e => !isBuildPhaseEvent e) = true) :
    noBuildAfterBench (A ++ B) := by
  intro i j hi hj hij hbench
  by_cases hiA : i < A.length
  · exfalso
    have hgeti : (A ++ B).get ⟨i, hi⟩ = A.get ⟨i, hiA⟩ := by
      simp only [List.get_eq_getElem]
      exact List.getElem_append_left hiA
    have hmem : A.get ⟨i, hiA⟩ ∈ A := A.get_mem i hiA
    have hP := List.all_eq_true.mp hA _ hmem
    rw [← hgeti, hbench] at hP
    simp at hP
  · have hjA : A.length ≤ j := by omega
    have hjB : j - A.length < B.length := by
      have := hj
      rw [List.length_append] at this
      omega
    have hgetj : (A ++ B).get ⟨j, hj⟩ = B.get ⟨j - A.length, hjB⟩ := by
      simp only [List.get_eq_getElem]
      exact List.getElem_append_right hjA
    have hmem : B.get ⟨j - A.length, hjB⟩ ∈ B := B.get_mem _ hjB
    have hP := List.all_eq_true.mp hB _ hmem
    rw [← hgetj] at hP
    simpa using hP

/-- C3: starting a pipeline run with an empty trace, no build-phase work
of any commit (clone, checkout, marker write, or build command) is ever
performed after any benchmark execution (warm-up or timed run) of any
commit: the build pass over all commits completes (or halts the run)
before the benchmark pass starts. -/
theorem pipeline_two_pass_ordering (env : Env) (cfg : AppConfig) (st : PState)
    (h0 : st.trace = []) :
    noBuildAfterBench (runPipeline env cfg st).2.trace := by
  unfold runPipeline
  rcases hb : buildCommits env cfg st with ⟨r, st1⟩
  obtain ⟨d1, h1, a1⟩ := buildCommits_traceExt (fun e => !isBenchEvent e)
    rfl (fun d => rfl) (fun d => rfl) (fun p d => rfl) (fun cm => rfl) env cfg st
  rw [hb] at h1
  dsimp only at h1
  rw [h0, List.nil_append] at h1
  cases r with
  | done =>
    obtain ⟨d2, h2, a2⟩ := runCommits_traceExt (fun e => !isBuildPhaseEvent e)
      rfl (fun cm => rfl) (fun cm => rfl) env cfg st1
    dsimp only
    rw [h2, h1]
    exact noBuildAfterBench_append d1 d2 a1 a2
  | fatal m =>
    dsimp only
    rw [h1]
    have := noBuildAfterBench_append d1 [] a1 rfl
    simpa using this
  | panicked m =>
    dsimp only
    rw [h1]
    have := noBuildAfterBench_append d1 [] a1 rfl
    simpa using this

/-- C3 witness: the concrete single-commit run. -/
theorem pipeline_two_pass_ordering_witness :
    noBuildAfterBench (runPipeline envAllOk cfgHead stHead).2.trace :=
  pipeline_two_pass_ordering envAllOk cfgHead stHead rfl

theorem buildCommitsLoop_append (env : Env) (cfg : AppConfig) :
    ∀ (xs ys : List Commit) (st : PState),
    buildCommitsLoop env cfg (xs ++ ys) st =
      match buildCommitsLoop env cfg xs st with
      | (.done, st1) => buildCommitsLoop env cfg ys st1
      | (r, st1) => (r, st1) := by
  intro xs
  induction xs with
  | nil => intro ys st; rfl
  | cons c rest ih =>
    intro ys st
    simp only [List.cons_append, buildCommitsLoop]
    rcases hb : buildCommit env c cfg st with ⟨r, st1⟩
    cases r with
    | ok u => exact ih ys st1
    | error m => rfl
    | panicked m => rfl

theorem runCommitsLoop_append (env : Env) (cfg : AppConfig) :
    ∀ (xs ys : List Commit) (st : PState),
    runCommitsLoop env cfg (xs ++ ys) st =
      match runCommitsLoop env cfg xs st with
      | (.done, st1) => runCommitsLoop env cfg ys st1
      | (r, st1) => (r, st1) := by
  intro xs
  induction xs with
  | nil => intro ys st; rfl
  | cons c rest ih =>
    intro ys st
    simp only [List.cons_append, runCommitsLoop]
    rcases hb : runCommit env c cfg st with ⟨r, st1⟩
    cases r with
    | ok u => exact ih ys st1
    | error m => rfl
    | panicked m => rfl

/-- C5: in either pass, if the commits before `c` all succeed and `c`'s
processing fails, the loop halts with the fatal outcome in the state left
by `c` — the commits after `c` are never consulted (the result does not
depend on `cs2`) — and the trace accumulated before the failure is
preserved as a prefix, so earlier results are not retracted. -/
theorem pipeline_fail_fast (env : Env) (cfg : AppConfig) (cs1 cs2 : List Commit)
    (c : Commit) (st stB stR : PState) (mB mR : String) :
    (buildCommitsLoop env cfg cs1 st = (.done, stB) →
     (buildCommit env c cfg stB).1 = .error mB →
       buildCommitsLoop env cfg (cs1 ++ c :: cs2) st =
         (.fatal ("Build error: " ++ mB), (buildCommit env c cfg stB).2) ∧
       TraceExt (fun _ => true) stB (buildCommit env c cfg stB).2) ∧
    (runCommitsLoop env cfg cs1 st = (.done, stR) →
     (runCommit env c cfg stR).1 = .error mR →
       runCommitsLoop env cfg (cs1 ++ c :: cs2) st =
         (.fatal ("Run error: " ++ mR), (runCommit env c cfg stR).2) ∧
       TraceExt (fun _ => true) stR (runCommit env c cfg stR).2) := by
  constructor
  · intro h1 h2
    constructor
    · rw [buildCommitsLoop_append env cfg cs1 (c :: cs2) st, h1]
      dsimp only
      simp only [buildCommitsLoop]
      rcases hb : buildCommit env c cfg stB with ⟨r, st'⟩
      rw [hb] at h2
      dsimp only at h2
      subst h2
      rfl
    · exact buildCommit_traceExt (fun _ => true) rfl (fun d => rfl) (fun d => rfl)
        (fun p d => rfl) (fun cm => rfl) env c cfg stB
  · intro h1 h2
    constructor
    · rw [runCommitsLoop_append env cfg cs1 (c :: cs2) st, h1]
      dsimp only
      simp only [runCommitsLoop]
      rcases hb : runCommit env c cfg stR with ⟨r, st'⟩
      rw [hb] at h2
      dsimp only at h2
      subst h2
      rfl
    · exact runCommit_traceExt (fun _ => true) rfl (fun cm => rfl) (fun cm => rfl)
        env c cfg stR

/-- C5 witness: with the malformed commit `cBad` first in the list, both
passes halt fatally and never reach the following commit. -/
theorem pipeline_fail_fast_witness :
    (buildCommitsLoop envAllOk cfgA ([] ++ cBad :: [cA]) st0 =
       (.fatal ("Build error: " ++ "Error getting hash: Failed to parse commit hash: zz"),
        (buildCommit envAllOk cBad cfgA st0).2) ∧
     TraceExt (fun _ => true) st0 (buildCommit envAllOk cBad cfgA st0).2) ∧
    (runCommitsLoop envAllOk cfgA ([] ++ cBad :: [cA]) st0 =
       (.fatal ("Run error: " ++ "Error getting hash: Failed to parse commit hash: zz"),
        (runCommit envAllOk cBad cfgA st0).2) ∧
     TraceExt (fun _ => true) st0 (runCommit envAllOk cBad cfgA st0).2) :=
  ⟨(pipeline_fail_fast envAllOk cfgA [] [cA] cBad st0 st0 st0
      "Error getting hash: Failed to parse commit hash: zz"
      "Error getting hash: Failed to parse commit hash: zz").1 rfl (by decide),
   (pipeline_fail_fast envAllOk cfgA [] [cA] cBad st0 st0 st0
      "Error getting hash: Failed to parse commit hash: zz"
      "Error getting hash: Failed to parse commit hash: zz").2 rfl (by decide)⟩
